import Mathlib

/-!
Verification of the molecule-to-graph projection in the graph-notebook
starter notebook `01-Modeling-Molecular-Structures-as-Graph-Data-Gremlin.ipynb`.

The notebook parses a SMILES descriptor with an external chemistry library,
then projects the parsed molecule's atoms and bonds into two flat tabular
collections (`nodes_dict`, `edges_dict`) whose rows are keyed by synthesized
string identifiers, and finally re-derives the node identifiers to issue one
drop query per node during cleanup.  The definitions below embed that
authored logic; the external parser itself is out of scope and a parsed
molecule is modelled as plain data.
-/

/-- A parsed atom as the projection loop observes it: `GetIdx`, `GetSymbol`,
`GetAtomicNum`, `GetIsAromatic`. -/
structure Atom where
  idx : Nat
  symbol : String
  atomicNum : Nat
  isAromatic : Bool
deriving DecidableEq

/-- A parsed bond as the projection loop observes it: `GetBeginAtomIdx`,
`GetEndAtomIdx`, and the stringified `GetBondType`. -/
structure Bond where
  beginAtomIdx : Nat
  endAtomIdx : Nat
  bondType : String
deriving DecidableEq

/-- A parsed molecule: the sequences the loops `mol.GetAtoms()` and
`mol.GetBonds()` iterate over, in iteration order. -/
structure Mol where
  atoms : List Atom
  bonds : List Bond
deriving DecidableEq

/-- The `nodes_dict` table: five parallel field lists keyed by position.
The source keys are `~id`, `~label`, `idx`, `atomicNumber`, `isAromatic`. -/
structure NodesDict where
  id : List String
  label : List String
  idx : List Nat
  atomicNumber : List Nat
  isAromatic : List Bool
deriving DecidableEq

/-- The `edges_dict` table: four parallel field lists keyed by position.
The source keys are `~id`, `~label`, `~from`, `~to`. -/
structure EdgesDict where
  id : List String
  label : List String
  fromNode : List String
  toNode : List String
deriving DecidableEq

/-- The initial `nodes_dict` value: every field list empty. -/
def emptyNodesDict : NodesDict := ⟨[], [], [], [], []⟩

/-- The initial `edges_dict` value: every field list empty. -/
def emptyEdgesDict : EdgesDict := ⟨[], [], [], []⟩

/-- The node identifier string `'Node-' + smiles + str(i)`. -/
def nodeId (smiles : String) (i : Nat) : String :=
  "Node-" ++ smiles ++ Nat.repr i

/-- The edge identifier string `'edge-' + smiles + str(b) + str(e)`:
the two indices are concatenated with no separator. -/
def edgeId (smiles : String) (b e : Nat) : String :=
  "edge-" ++ smiles ++ Nat.repr b ++ Nat.repr e

/-- One iteration of the atom loop: append one value to each of the five
field lists of `nodes_dict`. -/
def appendNode (smiles : String) (a : Atom) (d : NodesDict) : NodesDict :=
  { id := d.id ++ [nodeId smiles a.idx]
    label := d.label ++ [a.symbol]
    idx := d.idx ++ [a.idx]
    atomicNumber := d.atomicNumber ++ [a.atomicNum]
    isAromatic := d.isAromatic ++ [a.isAromatic] }

/-- One iteration of the bond loop: append one value to each of the four
field lists of `edges_dict`. -/
def appendEdge (smiles : String) (b : Bond) (d : EdgesDict) : EdgesDict :=
  { id := d.id ++ [edgeId smiles b.beginAtomIdx b.endAtomIdx]
    label := d.label ++ [b.bondType]
    fromNode := d.fromNode ++ [nodeId smiles b.beginAtomIdx]
    toNode := d.toNode ++ [nodeId smiles b.endAtomIdx] }

/-- The atom loop `for atom in mol.GetAtoms(): ...` run over a given atom
sequence, starting from a given table state. -/
def projectAtoms (smiles : String) (atoms : List Atom) (d : NodesDict) : NodesDict :=
  atoms.foldl (fun acc a => appendNode smiles a acc) d

/-- The bond loop `for bond in mol.GetBonds(): ...` run over a given bond
sequence, starting from a given table state. -/
def projectBonds (smiles : String) (bonds : List Bond) (d : EdgesDict) : EdgesDict :=
  bonds.foldl (fun acc b => appendEdge smiles b acc) d

/-- One projection run started from the empty collections, as in the
notebook: empty `nodes_dict`/`edges_dict`, then the atom loop, then the
bond loop. -/
def projectMol (smiles : String) (m : Mol) : NodesDict × EdgesDict :=
  (projectAtoms smiles m.atoms emptyNodesDict,
   projectBonds smiles m.bonds emptyEdgesDict)

/-- The notebook session state visible to the projection cell: the
descriptor string, the parsed molecule, the two tables, and whatever else
the session holds (`rest`). -/
structure SessionState (α : Type) where
  caffeine_smiles : String
  mol : Mol
  nodes_dict : NodesDict
  edges_dict : EdgesDict
  rest : α
deriving DecidableEq

/-- Running the projection cell on a session state: the two loops update the
two tables in place; nothing else is assigned. -/
def runProjectionCell {α : Type} (s : SessionState α) : SessionState α :=
  { s with
    nodes_dict := projectAtoms s.caffeine_smiles s.mol.atoms s.nodes_dict
    edges_dict := projectBonds s.caffeine_smiles s.mol.bonds s.edges_dict }

/-- The Gremlin drop query issued for one identifier:
`"g.V().has('~id', '" + i + "').drop();"`. -/
def dropQuery (i : String) : String :=
  "g.V().has(\x27~id\x27, \x27" ++ i ++ "\x27).drop();"

/-- The cleanup loop `for i in nodes_df['~id']: ... execute_gremlin(...)`,
returned as the sequence of issued queries in issue order. -/
def cleanupRun (nodes : NodesDict) : List String :=
  nodes.id.foldl (fun ops i => ops ++ [dropQuery i]) []

/-- The caffeine descriptor from the notebook. -/
def caffeine_smiles : String := "CN1C=NC2=C1C(=O)N(C(=O)N2C)C"

/-- Modelled from the spec: the external chemistry library's parse of the
caffeine descriptor is not part of this repository.  The spec states the
parsed molecule has 14 heavy atoms and 15 bonds; the atoms and bonds below
realize those counts with the standard caffeine connectivity. -/
def caffeineMol : Mol :=
  { atoms :=
      [⟨0, "C", 6, false⟩, ⟨1, "N", 7, true⟩, ⟨2, "C", 6, true⟩,
       ⟨3, "N", 7, true⟩, ⟨4, "C", 6, true⟩, ⟨5, "C", 6, true⟩,
       ⟨6, "C", 6, false⟩, ⟨7, "O", 8, false⟩, ⟨8, "N", 7, false⟩,
       ⟨9, "C", 6, false⟩, ⟨10, "O", 8, false⟩, ⟨11, "N", 7, false⟩,
       ⟨12, "C", 6, false⟩, ⟨13, "C", 6, false⟩]
    bonds :=
      [⟨0, 1, "SINGLE"⟩, ⟨1, 2, "AROMATIC"⟩, ⟨2, 3, "AROMATIC"⟩,
       ⟨3, 4, "AROMATIC"⟩, ⟨4, 5, "AROMATIC"⟩, ⟨5, 6, "SINGLE"⟩,
       ⟨6, 7, "DOUBLE"⟩, ⟨6, 8, "SINGLE"⟩, ⟨8, 9, "SINGLE"⟩,
       ⟨9, 10, "DOUBLE"⟩, ⟨9, 11, "SINGLE"⟩, ⟨11, 12, "SINGLE"⟩,
       ⟨8, 13, "SINGLE"⟩, ⟨5, 1, "AROMATIC"⟩, ⟨11, 4, "SINGLE"⟩] }

/-- Rectangularity of the node table: the five field lists share one length. -/
def NodesDict.rect (d : NodesDict) : Prop :=
  d.label.length = d.id.length ∧ d.idx.length = d.id.length ∧
    d.atomicNumber.length = d.id.length ∧ d.isAromatic.length = d.id.length

/-- Rectangularity of the edge table: the four field lists share one length. -/
def EdgesDict.rect (d : EdgesDict) : Prop :=
  d.label.length = d.id.length ∧ d.fromNode.length = d.id.length ∧
    d.toNode.length = d.id.length

/-- The numeric value of a decimal digit character. -/
def charToDigit (c : Char) : Nat := c.toNat - 48

/-- Decode a digit-character list back to the number it denotes. -/
def decodeDigits (l : List Char) : Nat :=
  Nat.ofDigits 10 (l.reverse.map charToDigit)

instance : Decidable (NodesDict.rect d) := by
  unfold NodesDict.rect; infer_instance

instance : Decidable (EdgesDict.rect d) := by
  unfold EdgesDict.rect; infer_instance

/-- A small two-atom, one-bond molecule used to instantiate hypotheses of
the theorems below at a concrete input. -/
def witnessMol : Mol :=
  { atoms := [⟨0, "C", 6, false⟩, ⟨1, "N", 7, false⟩]
    bonds := [⟨0, 1, "SINGLE"⟩] }

/-! ### Field-content lemmas for the projection folds -/

theorem projectAtoms_id (s : String) (atoms : List Atom) (d : NodesDict) :
    (projectAtoms s atoms d).id = d.id ++ atoms.map (fun a => nodeId s a.idx) := by
  induction atoms generalizing d with
  | nil => simp [projectAtoms]
  | cons a as ih =>
    simp only [projectAtoms, List.foldl_cons, List.map_cons] at *
    rw [ih]
    simp [appendNode]

theorem projectAtoms_label (s : String) (atoms : List Atom) (d : NodesDict) :
    (projectAtoms s atoms d).label = d.label ++ atoms.map Atom.symbol := by
  induction atoms generalizing d with
  | nil => simp [projectAtoms]
  | cons a as ih =>
    simp only [projectAtoms, List.foldl_cons, List.map_cons] at *
    rw [ih]
    simp [appendNode]

theorem projectAtoms_idx (s : String) (atoms : List Atom) (d : NodesDict) :
    (projectAtoms s atoms d).idx = d.idx ++ atoms.map Atom.idx := by
  induction atoms generalizing d with
  | nil => simp [projectAtoms]
  | cons a as ih =>
    simp only [projectAtoms, List.foldl_cons, List.map_cons] at *
    rw [ih]
    simp [appendNode]

theorem projectAtoms_atomicNumber (s : String) (atoms : List Atom) (d : NodesDict) :
    (projectAtoms s atoms d).atomicNumber = d.atomicNumber ++ atoms.map Atom.atomicNum := by
  induction atoms generalizing d with
  | nil => simp [projectAtoms]
  | cons a as ih =>
    simp only [projectAtoms, List.foldl_cons, List.map_cons] at *
    rw [ih]
    simp [appendNode]

theorem projectAtoms_isAromatic (s : String) (atoms : List Atom) (d : NodesDict) :
    (projectAtoms s atoms d).isAromatic = d.isAromatic ++ atoms.map Atom.isAromatic := by
  induction atoms generalizing d with
  | nil => simp [projectAtoms]
  | cons a as ih =>
    simp only [projectAtoms, List.foldl_cons, List.map_cons] at *
    rw [ih]
    simp [appendNode]

theorem projectBonds_id (s : String) (bonds : List Bond) (d : EdgesDict) :
    (projectBonds s bonds d).id
      = d.id ++ bonds.map (fun b => edgeId s b.beginAtomIdx b.endAtomIdx) := by
  induction bonds generalizing d with
  | nil => simp [projectBonds]
  | cons b bs ih =>
    simp only [projectBonds, List.foldl_cons, List.map_cons] at *
    rw [ih]
    simp [appendEdge]

theorem projectBonds_label (s : String) (bonds : List Bond) (d : EdgesDict) :
    (projectBonds s bonds d).label = d.label ++ bonds.map Bond.bondType := by
  induction bonds generalizing d with
  | nil => simp [projectBonds]
  | cons b bs ih =>
    simp only [projectBonds, List.foldl_cons, List.map_cons] at *
    rw [ih]
    simp [appendEdge]

theorem projectBonds_fromNode (s : String) (bonds : List Bond) (d : EdgesDict) :
    (projectBonds s bonds d).fromNode
      = d.fromNode ++ bonds.map (fun b => nodeId s b.beginAtomIdx) := by
  induction bonds generalizing d with
  | nil => simp [projectBonds]
  | cons b bs ih =>
    simp only [projectBonds, List.foldl_cons, List.map_cons] at *
    rw [ih]
    simp [appendEdge]

theorem projectBonds_toNode (s : String) (bonds : List Bond) (d : EdgesDict) :
    (projectBonds s bonds d).toNode
      = d.toNode ++ bonds.map (fun b => nodeId s b.endAtomIdx) := by
  induction bonds generalizing d with
  | nil => simp [projectBonds]
  | cons b bs ih =>
    simp only [projectBonds, List.foldl_cons, List.map_cons] at *
    rw [ih]
    simp [appendEdge]

/-! ### Decimal rendering: `Nat.repr` is injective -/

theorem charToDigit_digitChar (d : Nat) (hd : d < 10) :
    charToDigit (Nat.digitChar d) = d := by
  interval_cases d <;> rfl

theorem toDigitsCore_eq (fuel : Nat) : ∀ (n : Nat) (ds : List Char), 0 < n → n ≤ fuel →
    Nat.toDigitsCore 10 fuel n ds
      = ((Nat.digits 10 n).map Nat.digitChar).reverse ++ ds := by
  induction fuel with
  | zero => intro n ds hn hf; omega
  | succ fuel ih =>
    intro n ds hn hf
    rw [Nat.toDigitsCore]
    by_cases h : n / 10 = 0
    · simp only [h, if_pos]
      rw [Nat.digits_def' (by norm_num : (1:ℕ) < 10) hn, h, Nat.digits_zero]
      simp
    · simp only [h, if_neg, if_false]
      have hn' : 0 < n / 10 := Nat.pos_of_ne_zero h
      have hlt : n / 10 < n := Nat.div_lt_self hn (by norm_num)
      rw [ih (n / 10) _ hn' (by omega)]
      rw [Nat.digits_def' (by norm_num : (1:ℕ) < 10) hn]
      simp [List.append_assoc]

theorem toDigits_eq (n : Nat) (hn : 0 < n) :
    Nat.toDigits 10 n = ((Nat.digits 10 n).map Nat.digitChar).reverse := by
  unfold Nat.toDigits
  rw [toDigitsCore_eq (n + 1) n [] hn (by omega), List.append_nil]

theorem decode_toDigits (n : Nat) : decodeDigits (Nat.toDigits 10 n) = n := by
  rcases Nat.eq_zero_or_pos n with h0 | hpos
  · subst h0; decide
  · rw [toDigits_eq n hpos]
    unfold decodeDigits
    rw [List.reverse_reverse, List.map_map]
    have : (Nat.digits 10 n).map (charToDigit ∘ Nat.digitChar) = Nat.digits 10 n := by
      apply List.map_congr_left ?_ |>.trans (List.map_id _)
      intro d hd
      exact charToDigit_digitChar d (Nat.digits_lt_base (by norm_num) hd)
    rw [this, Nat.ofDigits_digits]

theorem natRepr_injective : Function.Injective Nat.repr := by
  have h : Function.LeftInverse (fun s : String => decodeDigits s.data) Nat.repr := by
    intro n
    exact decode_toDigits n
  exact h.injective

theorem repr_lt_ten (n : Nat) (h : n < 10) :
    (Nat.repr n).data = [Nat.digitChar n] := by
  interval_cases n <;> rfl

theorem string_eq_of_data (s t : String) (h : s.data = t.data) : s = t := by
  cases s; cases t; exact congrArg String.mk h

theorem digitChar_inj (a b : Nat) (ha : a < 10) (hb : b < 10)
    (h : Nat.digitChar a = Nat.digitChar b) : a = b := by
  have h2 := congrArg charToDigit h
  rwa [charToDigit_digitChar a ha, charToDigit_digitChar b hb] at h2

/-! ### Identifier lemmas -/

theorem nodeId_inj (s : String) (i j : Nat) (h : nodeId s i = nodeId s j) : i = j := by
  unfold nodeId at h
  have hd := congrArg String.data h
  simp only [String.data_append] at hd
  exact natRepr_injective (string_eq_of_data _ _ (List.append_cancel_left hd))

theorem nodeId_ne_edgeId (s t : String) (i b e : Nat) :
    nodeId s i ≠ edgeId t b e := by
  intro h
  have hd := congrArg String.data h
  simp only [nodeId, edgeId, String.data_append, List.cons_append, List.nil_append,
    List.append_assoc] at hd
  injection hd with h1 _
  exact absurd h1 (by decide)

theorem dropQuery_inj (i j : String) (h : dropQuery i = dropQuery j) : i = j := by
  unfold dropQuery at h
  have hd := congrArg String.data h
  simp only [String.data_append] at hd
  exact string_eq_of_data _ _ (List.append_cancel_left (List.append_cancel_right hd))

theorem edgeId_digit_inj (s : String) (b e c f : Nat)
    (hb : b < 10) (he : e < 10) (hc : c < 10) (hf : f < 10)
    (h : edgeId s b e = edgeId s c f) : b = c ∧ e = f := by
  unfold edgeId at h
  have hd := congrArg String.data h
  simp only [String.data_append, repr_lt_ten _ hb, repr_lt_ten _ he,
    repr_lt_ten _ hc, repr_lt_ten _ hf, List.append_assoc, List.cons_append,
    List.nil_append] at hd
  simp only [List.cons.injEq, true_and] at hd
  have h2 := List.append_cancel_left hd
  simp only [List.cons.injEq, and_true] at h2
  exact ⟨digitChar_inj b c hb hc h2.1, digitChar_inj e f he hf h2.2⟩

theorem cleanupRun_eq (nodes : NodesDict) :
    cleanupRun nodes = nodes.id.map dropQuery := by
  unfold cleanupRun
  suffices h : ∀ (l init : List String),
      l.foldl (fun ops i => ops ++ [dropQuery i]) init = init ++ l.map dropQuery by
    simpa using h nodes.id []
  intro l
  induction l with
  | nil => simp
  | cons x xs ih => intro init; simp [ih, List.append_assoc]

/-! ### Claims -/

/-- Claim C1: for every parsed molecule with N atoms and M bonds, the
projection run started from empty collections appends exactly one node
record per atom and one edge record per bond: afterwards every field list
of the node collection has length N and every field list of the edge
collection has length M. -/
theorem projection_counts (s : String) (m : Mol) :
    (projectMol s m).1.id.length = m.atoms.length ∧
    (projectMol s m).1.label.length = m.atoms.length ∧
    (projectMol s m).1.idx.length = m.atoms.length ∧
    (projectMol s m).1.atomicNumber.length = m.atoms.length ∧
    (projectMol s m).1.isAromatic.length = m.atoms.length ∧
    (projectMol s m).2.id.length = m.bonds.length ∧
    (projectMol s m).2.label.length = m.bonds.length ∧
    (projectMol s m).2.fromNode.length = m.bonds.length ∧
    (projectMol s m).2.toNode.length = m.bonds.length := by
  simp [projectMol, projectAtoms_id, projectAtoms_label, projectAtoms_idx,
    projectAtoms_atomicNumber, projectAtoms_isAromatic, projectBonds_id,
    projectBonds_label, projectBonds_fromNode, projectBonds_toNode,
    emptyNodesDict, emptyEdgesDict]

/-- Claim C2: if every bond's begin and end indices are indices of atoms of
the molecule, then every `~from` and `~to` identifier of the produced edge
records equals the `~id` of some node record produced in the same run. -/
theorem projection_referential_consistency (s : String) (m : Mol)
    (h : ∀ b ∈ m.bonds, (∃ a ∈ m.atoms, a.idx = b.beginAtomIdx) ∧
      (∃ a ∈ m.atoms, a.idx = b.endAtomIdx)) :
    (∀ x ∈ (projectMol s m).2.fromNode, x ∈ (projectMol s m).1.id) ∧
    (∀ x ∈ (projectMol s m).2.toNode, x ∈ (projectMol s m).1.id) := by
  simp only [projectMol, projectBonds_fromNode, projectBonds_toNode,
    projectAtoms_id, emptyNodesDict, emptyEdgesDict, List.nil_append]
  constructor
  · intro x hx
    obtain ⟨b, hb, rfl⟩ := List.mem_map.mp hx
    obtain ⟨⟨a, ha, hai⟩, _⟩ := h b hb
    exact List.mem_map.mpr ⟨a, ha, by rw [hai]⟩
  · intro x hx
    obtain ⟨b, hb, rfl⟩ := List.mem_map.mp hx
    obtain ⟨_, ⟨a, ha, hai⟩⟩ := h b hb
    exact List.mem_map.mpr ⟨a, ha, by rw [hai]⟩

/-- Witness for C2 at a concrete two-atom, one-bond molecule. -/
theorem projection_referential_consistency_witness :
    (∀ x ∈ (projectMol "CN" witnessMol).2.fromNode,
        x ∈ (projectMol "CN" witnessMol).1.id) ∧
    (∀ x ∈ (projectMol "CN" witnessMol).2.toNode,
        x ∈ (projectMol "CN" witnessMol).1.id) :=
  projection_referential_consistency "CN" witnessMol (by decide)

/-- Claim C3: if the molecule's atom indices are pairwise distinct, the node
record identifiers produced by one projection run are pairwise distinct. -/
theorem node_ids_distinct (s : String) (m : Mol)
    (h : m.atoms.Pairwise (fun a b => a.idx ≠ b.idx)) :
    (projectMol s m).1.id.Nodup := by
  simp only [projectMol, projectAtoms_id, emptyNodesDict, List.nil_append]
  show (m.atoms.map fun a => nodeId s a.idx).Pairwise (· ≠ ·)
  exact List.Pairwise.map _
    (fun a b hab h2 => hab (nodeId_inj s a.idx b.idx h2)) h

/-- Witness for C3 at a concrete molecule with distinct atom indices. -/
theorem node_ids_distinct_witness : (projectMol "CN" witnessMol).1.id.Nodup :=
  node_ids_distinct "CN" witnessMol (by decide)

/-- Claim C4: each node record identifier is exactly the concatenation of
the fixed tag `"Node-"`, the descriptor text and the decimal rendering of
the atom index, and each edge record identifier is exactly the
concatenation of the fixed tag `"edge-"`, the descriptor text and the
decimal renderings of the bond's begin and end indices, with nothing else
(no escaping, separator, collision handling or uniqueness check) applied. -/
theorem id_construction (s : String) (m : Mol) :
    (projectMol s m).1.id
      = m.atoms.map (fun a => "Node-" ++ s ++ Nat.repr a.idx) ∧
    (projectMol s m).2.id
      = m.bonds.map (fun b =>
          "edge-" ++ s ++ Nat.repr b.beginAtomIdx ++ Nat.repr b.endAtomIdx) := by
  constructor
  · simp [projectMol, projectAtoms_id, emptyNodesDict, nodeId]
  · simp [projectMol, projectBonds_id, emptyEdgesDict, edgeId]

/-- Claim C5: two independent projection runs on the same descriptor and
parsed molecule, each started from empty collections (in otherwise
arbitrary, possibly different session states), produce identical node
collections and identical edge collections. -/
theorem projection_deterministic {α β : Type} (s1 : SessionState α)
    (s2 : SessionState β)
    (hsm : s1.caffeine_smiles = s2.caffeine_smiles) (hmol : s1.mol = s2.mol)
    (hn1 : s1.nodes_dict = emptyNodesDict) (he1 : s1.edges_dict = emptyEdgesDict)
    (hn2 : s2.nodes_dict = emptyNodesDict) (he2 : s2.edges_dict = emptyEdgesDict) :
    (runProjectionCell s1).nodes_dict = (runProjectionCell s2).nodes_dict ∧
    (runProjectionCell s1).edges_dict = (runProjectionCell s2).edges_dict := by
  constructor <;> simp [runProjectionCell, hsm, hmol, hn1, he1, hn2, he2]

/-- Witness for C5: two concrete sessions differing outside the projection
inputs yield equal collections. -/
theorem projection_deterministic_witness :
    (runProjectionCell ⟨"CN", witnessMol, emptyNodesDict, emptyEdgesDict, (0 : Nat)⟩).nodes_dict
      = (runProjectionCell ⟨"CN", witnessMol, emptyNodesDict, emptyEdgesDict, true⟩).nodes_dict ∧
    (runProjectionCell ⟨"CN", witnessMol, emptyNodesDict, emptyEdgesDict, (0 : Nat)⟩).edges_dict
      = (runProjectionCell ⟨"CN", witnessMol, emptyNodesDict, emptyEdgesDict, true⟩).edges_dict :=
  projection_deterministic _ _ rfl rfl rfl rfl rfl rfl

/-- Claim C6: for the caffeine descriptor, whose parsed molecule has 14
heavy atoms and 15 bonds, the projection produces exactly 14 node records
and exactly 15 edge records. -/
theorem caffeine_counts :
    (projectMol caffeine_smiles caffeineMol).1.id.length = 14 ∧
    (projectMol caffeine_smiles caffeineMol).2.id.length = 15 := by
  constructor
  · simp [projectMol, projectAtoms_id, emptyNodesDict, caffeineMol]
  · simp [projectMol, projectBonds_id, emptyEdgesDict, caffeineMol]

/-- Claim C7: the cleanup step iterates over the identifiers of the node
table and issues exactly one drop query per node record identifier, in
table order and with no batching, and none of its queries is keyed by an
edge record identifier of the same run. -/
theorem cleanup_one_drop_per_node (s : String) (m : Mol) :
    cleanupRun (projectMol s m).1 = (projectMol s m).1.id.map dropQuery ∧
    (cleanupRun (projectMol s m).1).length = (projectMol s m).1.id.length ∧
    (∀ e ∈ (projectMol s m).2.id, dropQuery e ∉ cleanupRun (projectMol s m).1) := by
  refine ⟨cleanupRun_eq _, ?_, ?_⟩
  · rw [cleanupRun_eq, List.length_map]
  · intro e he hmem
    rw [cleanupRun_eq] at hmem
    obtain ⟨i, hi, hie⟩ := List.mem_map.mp hmem
    simp only [projectMol, projectAtoms_id, projectBonds_id, emptyNodesDict,
      emptyEdgesDict, List.nil_append] at hi he
    obtain ⟨a, _, rfl⟩ := List.mem_map.mp hi
    obtain ⟨b, _, rfl⟩ := List.mem_map.mp he
    exact nodeId_ne_edgeId s s a.idx b.beginAtomIdx b.endAtomIdx
      (dropQuery_inj _ _ hie)

/-- Claim C8: the projection cell modifies only the two table collections;
the descriptor string, the parsed molecule and every other part of the
session state are unchanged. -/
theorem projection_frame {α : Type} (s : SessionState α) :
    (runProjectionCell s).caffeine_smiles = s.caffeine_smiles ∧
    (runProjectionCell s).mol = s.mol ∧
    (runProjectionCell s).rest = s.rest :=
  ⟨rfl, rfl, rfl⟩

/-- Claim C9: if every atom index of the molecule is a single decimal digit,
every bond endpoint is an atom index, and the bonds' (begin, end) endpoint
pairs are pairwise distinct, then the edge record identifiers produced by
one projection run are pairwise distinct. -/
theorem edge_ids_distinct (s : String) (m : Mol)
    (hsmall : ∀ a ∈ m.atoms, a.idx < 10)
    (href : ∀ b ∈ m.bonds, (∃ a ∈ m.atoms, a.idx = b.beginAtomIdx) ∧
      (∃ a ∈ m.atoms, a.idx = b.endAtomIdx))
    (hdist : m.bonds.Pairwise (fun b c =>
      b.beginAtomIdx ≠ c.beginAtomIdx ∨ b.endAtomIdx ≠ c.endAtomIdx)) :
    (projectMol s m).2.id.Nodup := by
  have hbound : ∀ b ∈ m.bonds, b.beginAtomIdx < 10 ∧ b.endAtomIdx < 10 := by
    intro b hb
    obtain ⟨⟨a1, ha1, he1⟩, ⟨a2, ha2, he2⟩⟩ := href b hb
    exact ⟨he1 ▸ hsmall a1 ha1, he2 ▸ hsmall a2 ha2⟩
  simp only [projectMol, projectBonds_id, emptyEdgesDict, List.nil_append]
  show (m.bonds.map fun b => edgeId s b.beginAtomIdx b.endAtomIdx).Pairwise (· ≠ ·)
  rw [List.pairwise_map]
  refine List.Pairwise.imp_of_mem ?_ hdist
  intro b c hb hc hbc heq
  obtain ⟨hb1, hb2⟩ := hbound b hb
  obtain ⟨hc1, hc2⟩ := hbound c hc
  obtain ⟨h1, h2⟩ := edgeId_digit_inj s _ _ _ _ hb1 hb2 hc1 hc2 heq
  rcases hbc with h | h
  · exact h h1
  · exact h h2

/-- Witness for C9 at a concrete molecule with single-digit indices and
distinct endpoint pairs. -/
theorem edge_ids_distinct_witness : (projectMol "CN" witnessMol).2.id.Nodup :=
  edge_ids_distinct "CN" witnessMol (by decide) (by decide) (by decide)

/-- Claim C10: starting from the empty collections, after each iteration of
the projection loops (that is, after processing any prefix of the atom list
and any prefix of the bond list) and after the projection completes, the
five field lists of the node collection share one length and the four field
lists of the edge collection share one length. -/
theorem projection_rectangular (s : String) (m : Mol) (k : Nat) :
    (projectAtoms s (m.atoms.take k) emptyNodesDict).rect ∧
    (projectBonds s (m.bonds.take k) emptyEdgesDict).rect ∧
    (projectMol s m).1.rect ∧ (projectMol s m).2.rect := by
  refine ⟨?_, ?_, ?_, ?_⟩ <;>
    simp [NodesDict.rect, EdgesDict.rect, projectMol, projectAtoms_id,
      projectAtoms_label, projectAtoms_idx, projectAtoms_atomicNumber,
      projectAtoms_isAromatic, projectBonds_id, projectBonds_label,
      projectBonds_fromNode, projectBonds_toNode, emptyNodesDict, emptyEdgesDict]
